import Mathlib

/-!
Verification of the connection-pool and node core of the aerospike client.

The definitions below are a shallow embedding of the C sources
(`as_node.c` and the libev event-loop driver).  Pure logic is translated
into Lean functions; socket input is passed explicitly as data (byte lists
or chunk streams); machine integers become `Nat`/`Int` (the quantities
involved — sizes, counters, rack ids — stay far below any overflow
boundary, and no arithmetic in the translated code wraps).
Primitives that the sources call but whose definitions live outside
the translated files (queue/pool helpers, `as_socket_validate`,
`as_strncpy`, `strtol`) are modelled, with a comment, from their
documented contracts.
-/

namespace Aerospike

/-- Status codes used by the translated code paths (subset of `as_status`). -/
inductive as_status
  | ok
  | errClient
  | errNoMoreConnections
  | errTimeout
  deriving DecidableEq, Repr

/-! ## Connection budget distribution (`as_node_create`, `as_node_create_async_pools`)

`as_node_create` (as_node.c lines 120-127) splits `max_conns_per_node`
over `conn_pools_per_node` sync sub-pools; `as_node_create_async_pools`
(lines 62-78) splits the async / pipeline budget over
`as_event_loop_capacity` event-loop pools.  Both compute
`max = total / count`, `rem = total - max * count` and give pool `i`
capacity `max + 1` when `i < rem`, else `max`. -/

/-- Capacity of sync sub-pool `i` in `as_node_create`. -/
def sync_pool_capacity (max_conns_per_node conn_pools_per_node i : Nat) : Nat :=
  let m := max_conns_per_node / conn_pools_per_node
  let rem := max_conns_per_node - m * conn_pools_per_node
  if i < rem then m + 1 else m

/-- Capacity of the per-event-loop pool `i` in `as_node_create_async_pools`. -/
def async_pool_capacity (max_conns_per_node event_loop_capacity i : Nat) : Nat :=
  let m := max_conns_per_node / event_loop_capacity
  let rem := max_conns_per_node - m * event_loop_capacity
  if i < rem then m + 1 else m

lemma async_eq_sync_capacity (total count i : Nat) :
    async_pool_capacity total count i = sync_pool_capacity total count i := rfl

lemma sum_capped_distribution (m r : Nat) :
    ∀ n : Nat,
      ((List.range n).map (fun i => if i < r then m + 1 else m)).sum = n * m + min r n := by
  intro n
  induction n with
  | zero => simp
  | succ k ih =>
      rw [List.range_succ, List.map_append, List.sum_append]
      simp only [List.map_cons, List.map_nil, List.sum_cons, List.sum_nil, ih,
        Nat.add_zero]
      by_cases h : k < r
      · rw [if_pos h, show min r k = k by omega, show min r (k + 1) = k + 1 by omega]
        ring
      · rw [if_neg h, show min r k = r by omega, show min r (k + 1) = r by omega]
        ring

lemma rem_eq_mod (total count : Nat) :
    total - total / count * count = total % count := by
  have h := Nat.div_add_mod total count
  have h2 : count * (total / count) = total / count * count := Nat.mul_comm _ _
  omega

lemma sync_pool_capacity_sum (total count : Nat) (h : 0 < count) :
    ((List.range count).map (sync_pool_capacity total count)).sum = total := by
  have hmod : total % count < count := Nat.mod_lt _ h
  have hrem := rem_eq_mod total count
  have hdm := Nat.div_add_mod total count
  have : ((List.range count).map (sync_pool_capacity total count)).sum
      = ((List.range count).map
          (fun i => if i < total - total / count * count then total / count + 1
                    else total / count)).sum := by
    rfl
  rw [this, sum_capped_distribution]
  rw [hrem]
  have hmin : min (total % count) count = total % count := by omega
  rw [hmin]
  have h2 : count * (total / count) = total / count * count := Nat.mul_comm _ _
  omega

/-- C9: on node creation the per-node connection budget is partitioned exactly:
the capacities of the `conn_pools_per_node` sync sub-pools sum to
`max_conns_per_node`, the per-event-loop async (and pipeline) pool capacities
sum to the async (and pipeline) budget, and the first `budget % pool-count`
pools each get one extra slot (the rest get exactly `budget / pool-count`). -/
theorem pool_budget_partition
    (max_conns async_max pipe_max count loops : Nat)
    (hcount : 0 < count) (hloops : 0 < loops) :
    ((List.range count).map (sync_pool_capacity max_conns count)).sum = max_conns
    ∧ ((List.range loops).map (async_pool_capacity async_max loops)).sum = async_max
    ∧ ((List.range loops).map (async_pool_capacity pipe_max loops)).sum = pipe_max
    ∧ (∀ i, i < max_conns % count →
        sync_pool_capacity max_conns count i = max_conns / count + 1)
    ∧ (∀ i, max_conns % count ≤ i →
        sync_pool_capacity max_conns count i = max_conns / count) := by
  refine ⟨sync_pool_capacity_sum _ _ hcount, ?_, ?_, ?_, ?_⟩
  · rw [show (async_pool_capacity async_max loops) = (sync_pool_capacity async_max loops) from rfl]
    exact sync_pool_capacity_sum _ _ hloops
  · rw [show (async_pool_capacity pipe_max loops) = (sync_pool_capacity pipe_max loops) from rfl]
    exact sync_pool_capacity_sum _ _ hloops
  · intro i hi
    unfold sync_pool_capacity
    have hrem := rem_eq_mod max_conns count
    simp only []
    rw [if_pos (by omega)]
  · intro i hi
    unfold sync_pool_capacity
    have hrem := rem_eq_mod max_conns count
    simp only []
    rw [if_neg (by omega)]

/-- Witness for `pool_budget_partition` at a concrete budget split. -/
theorem pool_budget_partition_witness :
    ((List.range 3).map (sync_pool_capacity 10 3)).sum = 10
    ∧ ((List.range 2).map (async_pool_capacity 7 2)).sum = 7
    ∧ ((List.range 2).map (async_pool_capacity 0 2)).sum = 0
    ∧ (∀ i, i < 10 % 3 → sync_pool_capacity 10 3 i = 10 / 3 + 1)
    ∧ (∀ i, 10 % 3 ≤ i → sync_pool_capacity 10 3 i = 10 / 3) :=
  pool_budget_partition 10 7 0 3 2 (by decide) (by decide)

/-! ## Info protocol read (`as_node_get_info`, as_node.c lines 680-737)

`as_node_get_info` writes the request, reads the 8-byte `as_proto` header
into the caller's stack buffer, byte-swaps it, sanity-checks the declared
body size, picks the stack buffer or a heap buffer of `proto_sz + 1` bytes,
reads the body and NUL-terminates it at index `proto_sz`.  The socket is
modelled explicitly: whether the request write and the header read succeed,
the declared size the header carries, and the bytes available for the body
read. -/

def INFO_STACK_BUF_SIZE : Nat := 16 * 1024

/-- Input to one `as_node_get_info` call: outcome of the request write and
header read, the body size declared by the (already byte-swapped) header,
and the stream of body bytes the socket will deliver. -/
structure InfoSocketData where
  writeOk : Bool
  headerOk : Bool
  declaredSz : Nat
  body : List Nat

/-- Successful result of `as_node_get_info`: which buffer was returned
(heap vs caller stack buffer) and its contents. -/
structure InfoResult where
  usedHeap : Bool
  buf : List Nat
  deriving DecidableEq, Repr

/-- Mirror of `as_node_get_info`.  Returns the call's outcome together with
the body bytes left unconsumed on the socket (an early error performs no
body read, so the whole body stream remains). -/
def as_node_get_info (s : InfoSocketData) : Except as_status InfoResult × List Nat :=
  if ¬ s.writeOk then (.error as_status.errClient, s.body)
  else if ¬ s.headerOk then (.error as_status.errClient, s.body)
  else if s.declaredSz = 0 ∨ s.declaredSz > 512 * 1024 then
    -- Sanity check body size: "Invalid info response size".
    (.error as_status.errClient, s.body)
  else
    -- Allocate a buffer if the response is bigger than the stack buffer.
    let usedHeap := s.declaredSz ≥ INFO_STACK_BUF_SIZE
    -- Read the response body.
    if s.declaredSz ≤ s.body.length then
      -- Null-terminate the response body and return it.
      (.ok ⟨usedHeap, s.body.take s.declaredSz ++ [0]⟩, s.body.drop s.declaredSz)
    else
      (.error as_status.errTimeout, [])

/-- Outcome of the slice of `as_node_refresh` that depends on the info call
(lines 844-850): whether the tend socket was closed and the returned status. -/
structure RefreshOutcome where
  socketClosed : Bool
  status : as_status
  deriving DecidableEq, Repr

/-- Mirror of the `as_node_refresh` branch on the `as_node_get_info` result:
a null buffer closes the tend connection and returns the error code; on
success the rest of the refresh (parse + dispatch) runs, abstracted as the
continuation `k`. -/
def as_node_refresh_info_step (s : InfoSocketData)
    (k : InfoResult → RefreshOutcome) : RefreshOutcome :=
  match (as_node_get_info s).1 with
  | .error e => ⟨true, e⟩
  | .ok r => k r

/-- C7: a declared info body size outside the sanity bound (zero, or above
512 KiB) makes `as_node_get_info` fail with a client error and return no
buffer; no body byte is consumed, and `as_node_refresh` closes the tend
connection instead of continuing (whatever the rest of the refresh would
have done). -/
theorem info_size_sanity_bound (s : InfoSocketData)
    (hw : s.writeOk = true) (hh : s.headerOk = true)
    (hsz : s.declaredSz = 0 ∨ s.declaredSz > 512 * 1024) :
    (as_node_get_info s).1 = .error as_status.errClient
    ∧ (as_node_get_info s).2 = s.body
    ∧ ∀ k, as_node_refresh_info_step s k = ⟨true, as_status.errClient⟩ := by
  have h1 : (as_node_get_info s) = (.error as_status.errClient, s.body) := by
    unfold as_node_get_info
    rw [hw, hh]
    simp [hsz]
  refine ⟨by rw [h1], by rw [h1], ?_⟩
  intro k
  unfold as_node_refresh_info_step
  rw [h1]

/-- Witness for `info_size_sanity_bound` at a declared size of 1 MiB. -/
theorem info_size_sanity_bound_witness :
    (as_node_get_info ⟨true, true, 1024 * 1024, [7, 7]⟩).1
        = .error as_status.errClient
    ∧ (as_node_get_info ⟨true, true, 1024 * 1024, [7, 7]⟩).2 = [7, 7]
    ∧ ∀ k, as_node_refresh_info_step ⟨true, true, 1024 * 1024, [7, 7]⟩ k
        = ⟨true, as_status.errClient⟩ :=
  info_size_sanity_bound ⟨true, true, 1024 * 1024, [7, 7]⟩ rfl rfl (Or.inr (by decide))

/-- C6 (counterexample): at a declared body size of exactly
`INFO_STACK_BUF_SIZE` the code heap-allocates (the test is
`proto_sz >= INFO_STACK_BUF_SIZE`, one byte being reserved for the NUL
terminator), although the declared size does not exceed the stack buffer's
capacity — refuting "heap exactly when the declared size exceeds the
capacity". -/
theorem info_heap_at_exact_capacity :
    ((as_node_get_info ⟨true, true, INFO_STACK_BUF_SIZE,
        List.replicate INFO_STACK_BUF_SIZE 0⟩).1.map InfoResult.usedHeap
      = .ok true)
    ∧ ¬ (INFO_STACK_BUF_SIZE > INFO_STACK_BUF_SIZE) := by
  constructor
  · unfold as_node_get_info
    rw [if_neg (by decide), if_neg (by decide), if_neg (by decide),
      if_pos (by rw [List.length_replicate])]
    simp [Except.map]
  · omega

/-- C6 (amended): `as_node_get_info` returns a heap buffer exactly when the
declared body size is at least `INFO_STACK_BUF_SIZE` (the stack buffer must
also hold the NUL terminator), and the caller's stack buffer otherwise. -/
theorem info_heap_iff_ge_stack_size (s : InfoSocketData) (r : InfoResult)
    (rest : List Nat) (h : as_node_get_info s = (.ok r, rest)) :
    r.usedHeap = true ↔ s.declaredSz ≥ INFO_STACK_BUF_SIZE := by
  unfold as_node_get_info at h
  by_cases hw : s.writeOk <;> simp [hw] at h
  by_cases hh : s.headerOk <;> simp [hh] at h
  by_cases hsz : s.declaredSz = 0 ∨ s.declaredSz > 512 * 1024 <;> simp [hsz] at h
  by_cases hlen : s.declaredSz ≤ s.body.length <;> simp [hlen] at h
  rw [← h.1]
  simp [ge_iff_le, decide_eq_true_eq]

/-- Witness for `info_heap_iff_ge_stack_size` at a small stack-buffered
response. -/
theorem info_heap_iff_ge_stack_size_witness :
    (⟨false, [5, 0]⟩ : InfoResult).usedHeap = true ↔ 1 ≥ INFO_STACK_BUF_SIZE := by
  have h : as_node_get_info ⟨true, true, 1, [5, 9]⟩ = (.ok ⟨false, [5, 0]⟩, [9]) := by
    unfold as_node_get_info
    simp [INFO_STACK_BUF_SIZE]
  exact info_heap_iff_ge_stack_size ⟨true, true, 1, [5, 9]⟩ ⟨false, [5, 0]⟩ [9] h

/-- C10: whenever `as_node_get_info` returns a buffer, it holds exactly the
declared number of body bytes followed by a NUL terminator at index
`declaredSz` — so the in-place tokenization that follows always finds a
terminator inside the buffer. -/
theorem info_buffer_nul_terminated (s : InfoSocketData) (r : InfoResult)
    (rest : List Nat) (h : as_node_get_info s = (.ok r, rest)) :
    r.buf = s.body.take s.declaredSz ++ [0]
    ∧ r.buf.length = s.declaredSz + 1
    ∧ r.buf.getD s.declaredSz 1 = 0 := by
  unfold as_node_get_info at h
  by_cases hw : s.writeOk <;> simp [hw] at h
  by_cases hh : s.headerOk <;> simp [hh] at h
  by_cases hsz : s.declaredSz = 0 ∨ s.declaredSz > 512 * 1024 <;> simp [hsz] at h
  by_cases hlen : s.declaredSz ≤ s.body.length <;> simp [hlen] at h
  have hbuf : r.buf = s.body.take s.declaredSz ++ [0] := by rw [← h.1]
  have htk : (s.body.take s.declaredSz).length = s.declaredSz :=
    List.length_take_of_le hlen
  refine ⟨hbuf, ?_, ?_⟩
  · rw [hbuf, List.length_append, htk]
    rfl
  · rw [hbuf]
    rw [List.getD_eq_getElem?_getD, List.getElem?_append_right (by omega)]
    rw [htk]
    simp

/-- Witness for `info_buffer_nul_terminated` on a two-byte response. -/
theorem info_buffer_nul_terminated_witness :
    (⟨false, [4, 5, 0]⟩ : InfoResult).buf = [4, 5, 6].take 2 ++ [0]
    ∧ (⟨false, [4, 5, 0]⟩ : InfoResult).buf.length = 2 + 1
    ∧ (⟨false, [4, 5, 0]⟩ : InfoResult).buf.getD 2 1 = 0 := by
  have h : as_node_get_info ⟨true, true, 2, [4, 5, 6]⟩ = (.ok ⟨false, [4, 5, 0]⟩, [6]) := by
    unfold as_node_get_info
    simp [INFO_STACK_BUF_SIZE]
  exact info_buffer_nul_terminated ⟨true, true, 2, [4, 5, 6]⟩ ⟨false, [4, 5, 0]⟩ [6] h

/-! ## Alias list (`as_node_add_alias`, as_node.c lines 225-255)

`as_node_add_alias` scans the alias vector for an entry whose stored name
compares equal (`strcmp`) to the argument hostname with the same port and
returns if found; otherwise it copies the hostname with `as_strncpy` into
the fixed-size `as_alias.name` buffer (logging a warning on truncation) and
appends, unless the fixed-capacity vector is full (then the alias is
dropped with a log message). -/

/-- Size of the fixed `as_alias.name` buffer.  `as_alias` is declared in a
header outside the translated sources; the client sizes the buffer for a
maximal hostname (`AS_MAX_HOSTNAME_SIZE`, 256 bytes including the NUL). -/
def AS_MAX_HOSTNAME_SIZE : Nat := 256

/-- Modelled from the spec of `as_strncpy` (as_string.h, outside the
translated sources): copy at most `size - 1` characters and NUL-terminate,
returning `true` when the source was truncated. -/
def as_strncpy (src : List Char) (size : Nat) : List Char × Bool :=
  (src.take (size - 1), decide (size - 1 < src.length))

/-- One stored alias: the (possibly truncated) hostname and the port. -/
structure as_alias where
  name : List Char
  port : Nat
  deriving DecidableEq, Repr

/-- The node's alias vector: entries plus the fixed capacity of the
underlying `as_vector`. -/
structure AliasVector where
  entries : List as_alias
  capacity : Nat
  deriving DecidableEq, Repr

/-- Mirror of `as_node_add_alias`. -/
def as_node_add_alias (aliases : AliasVector) (hostname : List Char)
    (port : Nat) : AliasVector :=
  if aliases.entries.any (fun a => a.name = hostname ∧ a.port = port) then
    -- Already exists.
    aliases
  else
    let stored := (as_strncpy hostname AS_MAX_HOSTNAME_SIZE).1
    -- Alias vector is currently a fixed size.
    if aliases.entries.length < aliases.capacity then
      { aliases with entries := aliases.entries ++ [⟨stored, port⟩] }
    else
      aliases

/-- A 256-character hostname, longer than the alias name buffer keeps. -/
def longHostname : List Char := List.replicate AS_MAX_HOSTNAME_SIZE 'a'

set_option maxRecDepth 8000 in
/-- C4 (counterexample): with a hostname of 256 characters the stored name
is truncated to 255 characters, so the duplicate scan of a second
`as_node_add_alias` call never matches and the alias is appended again —
the list length changes, refuting idempotence as stated. -/
theorem add_alias_truncated_not_idempotent :
    (as_node_add_alias (as_node_add_alias ⟨[], 2⟩ longHostname 3000)
        longHostname 3000).entries.length
      ≠ (as_node_add_alias ⟨[], 2⟩ longHostname 3000).entries.length := by
  decide

/-- C4 (amended): for a hostname that fits the alias name buffer untruncated
(length < `AS_MAX_HOSTNAME_SIZE`), a second `as_node_add_alias` call with
the same hostname and port leaves the alias list length unchanged. -/
theorem add_alias_idempotent_len (v : AliasVector) (hostname : List Char)
    (port : Nat) (hfit : hostname.length < AS_MAX_HOSTNAME_SIZE) :
    (as_node_add_alias (as_node_add_alias v hostname port)
        hostname port).entries.length
      = (as_node_add_alias v hostname port).entries.length := by
  have hstored : (as_strncpy hostname AS_MAX_HOSTNAME_SIZE).1 = hostname := by
    unfold as_strncpy
    exact List.take_of_length_le (by omega)
  have key : ∀ w : AliasVector,
      (w.entries.any (fun a => a.name = hostname ∧ a.port = port)) = true →
      as_node_add_alias w hostname port = w := by
    intro w hw
    unfold as_node_add_alias
    rw [if_pos hw]
  by_cases hmem : (v.entries.any (fun a => a.name = hostname ∧ a.port = port)) = true
  · rw [key v hmem, key v hmem]
  · by_cases hcap : v.entries.length < v.capacity
    · have h1 : as_node_add_alias v hostname port
          = ⟨v.entries ++ [⟨hostname, port⟩], v.capacity⟩ := by
        unfold as_node_add_alias
        rw [if_neg hmem]
        simp only [hstored]
        rw [if_pos hcap]
      have h2 : as_node_add_alias
            (⟨v.entries ++ [⟨hostname, port⟩], v.capacity⟩ : AliasVector)
            hostname port
          = ⟨v.entries ++ [⟨hostname, port⟩], v.capacity⟩ := by
        apply key
        simp
      rw [h1, h2]
    · have h1 : as_node_add_alias v hostname port = v := by
        unfold as_node_add_alias
        rw [if_neg hmem]
        simp only [hstored]
        rw [if_neg hcap]
      rw [h1, h1]

/-- Witness for `add_alias_idempotent_len` on a short hostname. -/
theorem add_alias_idempotent_len_witness :
    (['d', 'b'].length < AS_MAX_HOSTNAME_SIZE)
    ∧ (as_node_add_alias (as_node_add_alias ⟨[], 2⟩ ['d', 'b'] 3000)
        ['d', 'b'] 3000).entries.length
      = (as_node_add_alias ⟨[], 2⟩ ['d', 'b'] 3000).entries.length :=
  ⟨by decide, add_alias_idempotent_len ⟨[], 2⟩ ['d', 'b'] 3000 (by decide)⟩

/-! ## Sync connection acquisition (`as_node_get_connection`, as_node.c lines 408-482)

The sync path keeps `conn_pools_per_node` sub-pools.  `as_node_get_connection`
starts at a preferred sub-pool (`conn_iter % max`), pops idle sockets and
validates them, reserves a creation slot when the pool has headroom, and
otherwise advances `pool_index` backward from the preferred index, then
(after wrapping) forward — but the pool pointer is advanced with
`pool = &pool[pool_index]`, an offset from the *current* pool pointer
rather than from the `pools` array base.  The model mirrors that pointer
arithmetic: `ptr` is the pool the pointer designates, and each advance sets
`ptr := ptr + pool_index`. -/

/-- An idle pooled socket; `valid` is the outcome of the
`as_socket_validate` liveness probe (modelled from the spec: a would-block
read probe means healthy, anything else invalidates the socket). -/
structure PoolSock where
  valid : Bool
  id : Nat
  deriving DecidableEq, Repr

/-- One sync sub-pool, modelled from the spec contract of `as_conn_pool`
(as_conn_pool.h is not among the translated sources): a bounded queue of
idle sockets plus a `total` counter of outstanding (idle + leased)
connections capped by `capacity`.  The queue head is the `pop_head` end,
the last element the tail. -/
structure ConnPool where
  idle : List PoolSock
  total : Nat
  capacity : Nat
  deriving DecidableEq, Repr

/-- Modelled from the spec: `take_idle` — pop the head of the idle queue.
The popped socket stays counted in `total` (it is now leased). -/
def as_conn_pool_pop_head (p : ConnPool) : Option (PoolSock × ConnPool) :=
  match p.idle with
  | [] => none
  | s :: rest => some (s, { p with idle := rest })

/-- Result of the `as_node_get_connection` probe loop. -/
inductive GetConnResult
  | gotIdle (poolIdx : Nat) (s : PoolSock) (pools : List ConnPool)
  | createNew (poolIdx : Nat) (pools : List ConnPool)
  | noMoreConnections (pools : List ConnPool)
  | oobAccess
  | outOfFuel
  deriving DecidableEq, Repr

/-- Mirror of the `while (true)` loop of `as_node_get_connection`.  `ptr` is
the sub-pool currently designated by the C pool pointer; a `ptr` outside the
`pools` array surfaces as `oobAccess` (in C this dereference is undefined
behavior).  The advance step `ptr := ptr + pool_index` mirrors
`pool = &pool[pool_index]` of the source. -/
def get_conn_loop (fuel : Nat) (pools : List ConnPool)
    (ptr pool_index initial_index max : Nat) (backward : Bool) : GetConnResult :=
  match fuel with
  | 0 => .outOfFuel
  | fuel + 1 =>
    match pools[ptr]? with
    | none => .oobAccess
    | some pool =>
      match as_conn_pool_pop_head pool with
      | some (s, pool') =>
          if s.valid then
            -- Found socket: verify succeeded, hand it out.
            .gotIdle ptr s (pools.set ptr pool')
          else
            -- Invalid socket: close it and release its reservation, continue.
            get_conn_loop fuel
              (pools.set ptr ⟨pool'.idle, pool'.total - 1, pool'.capacity⟩)
              ptr pool_index initial_index max backward
      | none =>
          if pool.total < pool.capacity then
            -- Queue has an available slot: reserve it and create a connection.
            .createNew ptr
              (pools.set ptr ⟨pool.idle, pool.total + 1, pool.capacity⟩)
          else
            -- Queue is full (the increment is immediately undone): try another queue.
            if backward then
              if 0 < pool_index then
                get_conn_loop fuel pools (ptr + (pool_index - 1)) (pool_index - 1)
                  initial_index max backward
              else
                if initial_index + 1 ≥ max then .noMoreConnections pools
                else
                  get_conn_loop fuel pools (ptr + (initial_index + 1))
                    (initial_index + 1) initial_index max false
            else
              if pool_index + 1 ≥ max then .noMoreConnections pools
              else
                get_conn_loop fuel pools (ptr + (pool_index + 1)) (pool_index + 1)
                  initial_index max backward

/-- Mirror of `as_node_get_connection`: choose the preferred sub-pool from
the node's `conn_iter`, then run the probe loop.  The fuel is an upper bound
on the loop's iterations (each iteration either consumes an idle socket or
advances `pool_index`). -/
def as_node_get_connection (conn_iter : Nat) (pools : List ConnPool) : GetConnResult :=
  let max := pools.length
  let initial_index := if max = 1 then 0 else conn_iter % max
  let backward := ¬ max = 1
  get_conn_loop ((pools.map (fun p => p.idle.length)).sum + 2 * max + 4)
    pools initial_index initial_index initial_index max backward

/-- The same probe loop with the advance the surrounding code and spec
describe, `pool = &pools[pool_index]` (offset from the array base): used to
exhibit what the intended probe order yields on the failing input. -/
def get_conn_loop_intended (fuel : Nat) (pools : List ConnPool)
    (ptr pool_index initial_index max : Nat) (backward : Bool) : GetConnResult :=
  match fuel with
  | 0 => .outOfFuel
  | fuel + 1 =>
    match pools[ptr]? with
    | none => .oobAccess
    | some pool =>
      match as_conn_pool_pop_head pool with
      | some (s, pool') =>
          if s.valid then
            .gotIdle ptr s (pools.set ptr pool')
          else
            get_conn_loop_intended fuel
              (pools.set ptr ⟨pool'.idle, pool'.total - 1, pool'.capacity⟩)
              ptr pool_index initial_index max backward
      | none =>
          if pool.total < pool.capacity then
            .createNew ptr
              (pools.set ptr ⟨pool.idle, pool.total + 1, pool.capacity⟩)
          else
            if backward then
              if 0 < pool_index then
                get_conn_loop_intended fuel pools (pool_index - 1) (pool_index - 1)
                  initial_index max backward
              else
                if initial_index + 1 ≥ max then .noMoreConnections pools
                else
                  get_conn_loop_intended fuel pools (initial_index + 1)
                    (initial_index + 1) initial_index max false
            else
              if pool_index + 1 ≥ max then .noMoreConnections pools
              else
                get_conn_loop_intended fuel pools (pool_index + 1) (pool_index + 1)
                  initial_index max backward

/-- Intended variant of `as_node_get_connection` (probe indexed from the
`pools` base, as the spec and the code's own comment describe). -/
def as_node_get_connection_intended (conn_iter : Nat) (pools : List ConnPool) :
    GetConnResult :=
  let max := pools.length
  let initial_index := if max = 1 then 0 else conn_iter % max
  let backward := ¬ max = 1
  get_conn_loop_intended ((pools.map (fun p => p.idle.length)).sum + 2 * max + 4)
    pools initial_index initial_index initial_index max backward

/-- C1 (failing input): two sub-pools, preferred index 1; sub-pool 1 is full
with no idle socket, sub-pool 0 has reservation headroom.  The code probes
sub-pool 1 twice (`pool = &pool[pool_index]` re-offsets from the current
pool) and fails with `AEROSPIKE_ERR_NO_MORE_CONNECTIONS` without ever
probing sub-pool 0, while the probe order the claim describes reaches
sub-pool 0 and reserves a new connection there. -/
theorem get_connection_pointer_bug :
    as_node_get_connection 1 [⟨[], 0, 1⟩, ⟨[], 1, 1⟩]
        = .noMoreConnections [⟨[], 0, 1⟩, ⟨[], 1, 1⟩]
    ∧ as_node_get_connection_intended 1 [⟨[], 0, 1⟩, ⟨[], 1, 1⟩]
        = .createNew 0 [⟨[], 1, 1⟩, ⟨[], 1, 1⟩]
    ∧ (⟨[], 0, 1⟩ : ConnPool).total < (⟨[], 0, 1⟩ : ConnPool).capacity := by
  refine ⟨?_, ?_, by decide⟩ <;> decide

/-! ## Idle sweep (`as_node_close_idle_connections`, as_node.c lines 484-506)

For each sync sub-pool the sweep repeatedly pops the connection at the
*tail* of the idle queue; a connection no longer current (idle beyond the
configured budget) is closed and its reservation released, and the loop
continues; the first current connection found is pushed back on the tail
and the loop breaks. -/

/-- An idle connection as seen by the sweep: `idleNs` is the time it has
been idle (now minus `last_used`). -/
structure SweepConn where
  idleNs : Nat
  id : Nat
  deriving DecidableEq, Repr

/-- A sync sub-pool for the sweep; the queue head is index 0, the tail is
the last element (same orientation as `ConnPool`). -/
structure SweepPool where
  idle : List SweepConn
  total : Nat
  capacity : Nat
  deriving DecidableEq, Repr

/-- Modelled from the spec: `as_socket_current` — a connection is current
when its idle time is within the configured max-idle budget. -/
def as_socket_current (s : SweepConn) (maxIdleNs : Nat) : Bool :=
  s.idleNs ≤ maxIdleNs

/-- Modelled from the spec: pop the connection at the tail of the idle
queue. -/
def as_conn_pool_pop_tail (p : SweepPool) : Option (SweepConn × SweepPool) :=
  if hp : p.idle = [] then none
  else some (p.idle.getLast hp, { p with idle := p.idle.dropLast })

/-- Modelled from the spec: push a connection onto the tail of the idle
queue, failing when the bounded queue is full. -/
def as_conn_pool_push_tail (p : SweepPool) (s : SweepConn) : Option SweepPool :=
  if p.idle.length < p.capacity then some { p with idle := p.idle ++ [s] }
  else none

/-- Modelled from the spec: `return_idle` — a connection coming back from a
command is returned to the tail of the queue (spec section 4.1); a full
queue closes it instead and releases the reservation. -/
def as_node_put_connection (p : SweepPool) (s : SweepConn) : SweepPool :=
  match as_conn_pool_push_tail p s with
  | some p' => p'
  | none => ⟨p.idle, p.total - 1, p.capacity⟩

/-- Mirror of the per-pool `while (as_conn_pool_pop_tail ...)` sweep loop of
`as_node_close_idle_connections`; returns the pool after the sweep together
with the list of closed connections in closing order. -/
def as_node_close_idle_pool (maxIdleNs : Nat) (p : SweepPool) :
    SweepPool × List SweepConn :=
  match hpop : as_conn_pool_pop_tail p with
  | none => (p, [])
  | some (s, p') =>
      if as_socket_current s maxIdleNs then
        match as_conn_pool_push_tail p' s with
        | some p2 => (p2, [])
        | none => (⟨p'.idle, p'.total - 1, p'.capacity⟩, [s])
      else
        let r := as_node_close_idle_pool maxIdleNs ⟨p'.idle, p'.total - 1, p'.capacity⟩
        (r.1, s :: r.2)
termination_by p.idle.length
decreasing_by
  simp only [as_conn_pool_pop_tail] at hpop
  split at hpop
  · exact absurd hpop (by simp)
  · rename_i hne
    simp only [Option.some.injEq, Prod.mk.injEq] at hpop
    obtain ⟨-, rfl⟩ := hpop
    simp only [List.length_dropLast]
    have : p.idle.length ≠ 0 := fun h => hne (List.length_eq_zero.mp h)
    omega

/-- Mirror of `as_node_close_idle_connections`: sweep every sync sub-pool. -/
def as_node_close_idle_connections (maxIdleNs : Nat) (pools : List SweepPool) :
    List SweepPool :=
  pools.map (fun p => (as_node_close_idle_pool maxIdleNs p).1)

lemma takeWhile_mem_imp {α : Type} (pr : α → Bool) :
    ∀ (l : List α) (a : α), a ∈ l.takeWhile pr → pr a = true := by
  intro l
  induction l with
  | nil => intro a h; simp [List.takeWhile] at h
  | cons x xs ih =>
      intro a h
      rw [List.takeWhile_cons] at h
      by_cases hx : pr x = true
      · rw [if_pos hx] at h
        rcases List.mem_cons.mp h with h1 | h2
        · rw [h1]; exact hx
        · exact ih a h2
      · rw [if_neg hx] at h
        simp at h

lemma close_idle_pool_spec (maxIdleNs : Nat) :
    ∀ (n : Nat) (p : SweepPool), p.idle.length = n → p.idle.length ≤ p.capacity →
      as_node_close_idle_pool maxIdleNs p
        = (⟨(p.idle.reverse.dropWhile fun s => ! as_socket_current s maxIdleNs).reverse,
            p.total -
              (p.idle.reverse.takeWhile fun s => ! as_socket_current s maxIdleNs).length,
            p.capacity⟩,
           p.idle.reverse.takeWhile fun s => ! as_socket_current s maxIdleNs) := by
  intro n
  induction n using Nat.strong_induction_on with
  | _ n ih =>
    intro p hlen hcap
    obtain ⟨pidle, ptotal, pcap⟩ := p
    simp only [] at hlen hcap ⊢
    by_cases hnil : pidle = []
    · subst hnil
      rw [as_node_close_idle_pool, as_conn_pool_pop_tail]
      rw [dif_pos rfl]
      simp
    · have hnil' : (⟨pidle, ptotal, pcap⟩ : SweepPool).idle = [] → False := hnil
      have hsplit : pidle.dropLast ++ [pidle.getLast hnil] = pidle :=
        List.dropLast_append_getLast hnil
      have hrev : pidle.reverse = pidle.getLast hnil :: pidle.dropLast.reverse := by
        conv_lhs => rw [← hsplit]
        rw [List.reverse_append]
        rfl
      have h0 : pidle.length ≠ 0 := fun h => hnil (List.length_eq_zero.mp h)
      rw [as_node_close_idle_pool, as_conn_pool_pop_tail]
      rw [dif_neg hnil]
      simp only []
      by_cases hcur : as_socket_current (pidle.getLast hnil) maxIdleNs = true
      · rw [if_pos hcur]
        have hpush : as_conn_pool_push_tail
            ⟨pidle.dropLast, ptotal, pcap⟩ (pidle.getLast hnil)
            = some ⟨pidle, ptotal, pcap⟩ := by
          rw [as_conn_pool_push_tail]
          have hlt : pidle.dropLast.length < pcap := by
            simp only [List.length_dropLast]
            omega
          rw [if_pos hlt]
          simp only [hsplit]
        rw [hpush]
        rw [hrev, List.takeWhile_cons, List.dropWhile_cons]
        have hcur' : (! as_socket_current (pidle.getLast hnil) maxIdleNs) = false := by
          simp [hcur]
        rw [hcur']
        simp only [Bool.false_eq_true, if_false, List.reverse_cons,
          List.reverse_reverse, List.length_nil, Nat.sub_zero]
        rw [hsplit]
      · rw [if_neg hcur]
        have hr := ih (pidle.dropLast.length)
          (by simp only [List.length_dropLast]; omega)
          ⟨pidle.dropLast, ptotal - 1, pcap⟩ rfl
          (by simp only [List.length_dropLast]; omega)
        simp only [] at hr
        rw [hr]
        rw [hrev, List.takeWhile_cons, List.dropWhile_cons]
        have hcur' : (! as_socket_current (pidle.getLast hnil) maxIdleNs) = true := by
          simp [hcur]
        rw [hcur']
        simp only [if_true, List.length_cons]
        simp only [Prod.mk.injEq, SweepPool.mk.injEq, and_true, true_and]
        omega

/-- C5 (counterexample): build a sub-pool by returning a stale connection
(idle 100) and then a fresh one (idle 5) to the tail — so the head holds
the least-recently-used connection under the spec's returned-to-tail
discipline.  With a 10ns budget the sweep closes nothing: it examines the
tail (most-recently-used) first, finds the fresh connection current, and
stops — the stale connection at the least-recently-used end is never
examined, refuting the claimed examination order. -/
theorem close_idle_skips_stale_lru_head :
    (as_node_close_idle_pool 10
        (as_node_put_connection
          (as_node_put_connection ⟨[], 2, 4⟩ ⟨100, 0⟩) ⟨5, 1⟩)).2 = []
    ∧ (as_node_put_connection
          (as_node_put_connection ⟨[], 2, 4⟩ ⟨100, 0⟩) ⟨5, 1⟩).idle.head?
        = some ⟨100, 0⟩
    ∧ 10 < (100 : Nat) := by
  refine ⟨?_, by decide, by decide⟩
  rw [as_node_close_idle_pool]
  decide

/-- C5 (amended): per sub-pool, the sweep examines connections from the
*tail* of the idle queue: it removes and closes exactly the maximal run of
connections at the tail whose idle time exceeds the max-idle budget
(every closed connection exceeds the budget), stops at the first connection
still within the budget and returns it to the pool (the remaining queue is
the original minus that stale tail run), and
`as_node_close_idle_connections` applies this sweep to every sub-pool.
Under the spec's returned-to-tail discipline the tail is the
most-recently-used end, so the sweep is LRU-first only when connections are
returned to the head instead. -/
theorem close_idle_sweeps_stale_tail (maxIdleNs : Nat) (pools : List SweepPool)
    (i : Nat) (p : SweepPool) (hp : pools[i]? = some p)
    (hcap : p.idle.length ≤ p.capacity) :
    ((as_node_close_idle_pool maxIdleNs p).1.idle
        = (p.idle.reverse.dropWhile fun s => ! as_socket_current s maxIdleNs).reverse)
    ∧ ((as_node_close_idle_pool maxIdleNs p).2
        = p.idle.reverse.takeWhile fun s => ! as_socket_current s maxIdleNs)
    ∧ (∀ s ∈ (as_node_close_idle_pool maxIdleNs p).2, maxIdleNs < s.idleNs)
    ∧ (as_node_close_idle_connections maxIdleNs pools)[i]?
        = some (as_node_close_idle_pool maxIdleNs p).1 := by
  have h := close_idle_pool_spec maxIdleNs p.idle.length p rfl hcap
  refine ⟨by rw [h], by rw [h], ?_, ?_⟩
  · intro s hs
    rw [h] at hs
    have := takeWhile_mem_imp _ _ _ hs
    simp only [Bool.not_eq_true', as_socket_current, decide_eq_false_iff_not] at this
    omega
  · rw [as_node_close_idle_connections, List.getElem?_map, hp]
    rfl

/-- Witness for `close_idle_sweeps_stale_tail`: a pool with a stale
connection at the tail behind a current one. -/
theorem close_idle_sweeps_stale_tail_witness :
    ((as_node_close_idle_pool 10 ⟨[⟨5, 0⟩, ⟨100, 1⟩], 2, 4⟩).1.idle
        = (([⟨5, 0⟩, ⟨100, 1⟩] : List SweepConn).reverse.dropWhile
            (fun s => ! as_socket_current s 10)).reverse)
    ∧ ((as_node_close_idle_pool 10 ⟨[⟨5, 0⟩, ⟨100, 1⟩], 2, 4⟩).2
        = ([⟨5, 0⟩, ⟨100, 1⟩] : List SweepConn).reverse.takeWhile
            (fun s => ! as_socket_current s 10))
    ∧ (∀ s ∈ (as_node_close_idle_pool 10 ⟨[⟨5, 0⟩, ⟨100, 1⟩], 2, 4⟩).2,
        10 < s.idleNs)
    ∧ (as_node_close_idle_connections 10 [⟨[⟨5, 0⟩, ⟨100, 1⟩], 2, 4⟩])[0]?
        = some (as_node_close_idle_pool 10 ⟨[⟨5, 0⟩, ⟨100, 1⟩], 2, 4⟩).1 := by
  have hp : ([⟨[⟨5, 0⟩, ⟨100, 1⟩], 2, 4⟩] : List SweepPool)[0]?
      = some ⟨[⟨5, 0⟩, ⟨100, 1⟩], 2, 4⟩ := rfl
  exact close_idle_sweeps_stale_tail 10 [⟨[⟨5, 0⟩, ⟨100, 1⟩], 2, 4⟩] 0
    ⟨[⟨5, 0⟩, ⟨100, 1⟩], 2, 4⟩ hp (by decide)

/-! ## Event-loop wakeup drain (`as_ev_wakeup`, `as_event_close_loop`)

`as_ev_wakeup` snapshots the cross-thread queue's size under the lock, pops
the first commander, and then executes commanders in a loop: a commander
with a null executable triggers `as_event_close_loop` (stop the wakeup
watcher and, when the loop thread was created by the library, stop the
underlying `ev` run loop) and returns immediately; otherwise the executable
runs (it may re-entrantly push new commanders onto the queue) and the loop
pops again only while fewer than the snapshotted size have been executed. -/

/-- A queued commander: the shutdown sentinel (null executable) or an
executable whose run re-entrantly submits `spawns` to the same loop. -/
inductive Commander
  | stop
  | exec (spawns : List Commander)

/-- State of one event loop as the wakeup handler sees it. -/
structure EvLoopState where
  queue : List Commander
  wakeupActive : Bool
  running : Bool
  destroyed : Bool

/-- Mirror of `as_event_close_loop`: stop the wakeup watcher, stop the `ev`
run loop only when the client created the event-loop threads, and release
the loop's resources. -/
def as_event_close_loop (threadsCreated : Bool) (st : EvLoopState) : EvLoopState :=
  { st with
    wakeupActive := false
    running := if threadsCreated then false else st.running
    destroyed := true }

/-- Result of one wakeup: how many executables ran, the final loop state,
and whether the shutdown sentinel was taken. -/
structure WakeResult where
  executed : Nat
  st : EvLoopState
  closed : Bool

/-- Mirror of the `while (status)` drain loop of `as_ev_wakeup`: `cmd` is
the commander just popped; `budget` counts how many more pops the
size-at-wake snapshot allows (`size - i - 1` in the C counting). -/
def as_ev_wakeup_loop (threadsCreated : Bool) :
    Commander → EvLoopState → Nat → Nat → WakeResult
  | .stop, st, executed, _ =>
      -- Received stop signal.
      ⟨executed, as_event_close_loop threadsCreated st, true⟩
  | .exec spawns, st, executed, budget =>
      let st' := { st with queue := st.queue ++ spawns }
      match budget with
      | 0 => ⟨executed + 1, st', false⟩
      | b + 1 =>
          match st'.queue with
          | [] => ⟨executed + 1, st', false⟩
          | c :: rest =>
              as_ev_wakeup_loop threadsCreated c { st' with queue := rest }
                (executed + 1) b

/-- Mirror of `as_ev_wakeup`: snapshot the queue size, pop the first
commander and drain. -/
def as_ev_wakeup (threadsCreated : Bool) (st : EvLoopState) : WakeResult :=
  let size := st.queue.length
  match st.queue with
  | [] => ⟨0, st, false⟩
  | c :: rest =>
      as_ev_wakeup_loop threadsCreated c { st with queue := rest } 0 (size - 1)

lemma wakeup_loop_executed_le (threadsCreated : Bool) :
    ∀ (budget : Nat) (cmd : Commander) (st : EvLoopState) (executed : Nat),
      (as_ev_wakeup_loop threadsCreated cmd st executed budget).executed
        ≤ executed + budget + 1 := by
  intro budget
  induction budget with
  | zero =>
      intro cmd st executed
      cases cmd with
      | stop =>
          show executed ≤ executed + 0 + 1
          omega
      | exec spawns =>
          show executed + 1 ≤ executed + 0 + 1
          omega
  | succ b ih =>
      intro cmd st executed
      cases cmd with
      | stop =>
          show executed ≤ executed + (b + 1) + 1
          omega
      | exec spawns =>
          rw [as_ev_wakeup_loop]
          cases hq : st.queue ++ spawns with
          | nil => simp
          | cons c rest =>
              simp only []
              calc (as_ev_wakeup_loop threadsCreated c _ (executed + 1) b).executed
                  ≤ executed + 1 + b + 1 := ih c _ (executed + 1)
                _ ≤ executed + (b + 1) + 1 := by omega

/-- Re-entrant submissions a commander makes when executed. -/
def Commander.spawnsOf : Commander → List Commander
  | .stop => []
  | .exec spawns => spawns

lemma wakeup_loop_stop_eq (threadsCreated : Bool) (st : EvLoopState)
    (executed budget : Nat) :
    as_ev_wakeup_loop threadsCreated Commander.stop st executed budget
      = ⟨executed, as_event_close_loop threadsCreated st, true⟩ := by
  rw [as_ev_wakeup_loop.eq_def]

lemma wakeup_loop_exec_zero_eq (threadsCreated : Bool) (spawns : List Commander)
    (st : EvLoopState) (executed : Nat) :
    as_ev_wakeup_loop threadsCreated (Commander.exec spawns) st executed 0
      = ⟨executed + 1, { st with queue := st.queue ++ spawns }, false⟩ := by
  rw [as_ev_wakeup_loop.eq_def]

lemma wakeup_loop_exec_succ_nil_eq (threadsCreated : Bool)
    (spawns : List Commander) (st : EvLoopState) (executed b : Nat)
    (h : st.queue ++ spawns = []) :
    as_ev_wakeup_loop threadsCreated (Commander.exec spawns) st executed (b + 1)
      = ⟨executed + 1, { st with queue := st.queue ++ spawns }, false⟩ := by
  rw [as_ev_wakeup_loop.eq_def]
  simp only [h]

lemma wakeup_loop_exec_succ_cons_eq (threadsCreated : Bool)
    (spawns : List Commander) (st : EvLoopState) (executed b : Nat)
    (c : Commander) (rest : List Commander)
    (h : st.queue ++ spawns = c :: rest) :
    as_ev_wakeup_loop threadsCreated (Commander.exec spawns) st executed (b + 1)
      = as_ev_wakeup_loop threadsCreated c
          ⟨rest, st.wakeupActive, st.running, st.destroyed⟩ (executed + 1) b := by
  rw [as_ev_wakeup_loop.eq_def]
  simp only [h]

lemma wakeup_loop_sentinel (threadsCreated : Bool) :
    ∀ (pre : List Commander), (∀ x ∈ pre, x ≠ Commander.stop) →
      ∀ (c : Commander) (st : EvLoopState) (executed budget : Nat)
        (rest : List Commander),
        c :: st.queue = pre ++ Commander.stop :: rest → pre.length ≤ budget →
        (as_ev_wakeup_loop threadsCreated c st executed budget).closed = true
        ∧ (as_ev_wakeup_loop threadsCreated c st executed budget).executed
            = executed + pre.length
        ∧ (as_ev_wakeup_loop threadsCreated c st executed budget).st.wakeupActive
            = false
        ∧ (as_ev_wakeup_loop threadsCreated c st executed budget).st.destroyed = true
        ∧ (threadsCreated = true →
            (as_ev_wakeup_loop threadsCreated c st executed budget).st.running
              = false) := by
  intro pre
  induction pre with
  | nil =>
      intro _ c st executed budget rest hq _
      simp only [List.nil_append, List.cons.injEq] at hq
      rw [hq.1, wakeup_loop_stop_eq]
      refine ⟨rfl, by simp, rfl, rfl, ?_⟩
      intro htc
      simp [as_event_close_loop, htc]
  | cons p pre' ih =>
      intro hpre c st executed budget rest hq hbud
      simp only [List.cons_append, List.cons.injEq] at hq
      have hp : c ≠ Commander.stop := by
        rw [hq.1]
        exact hpre p (List.mem_cons_self _ _)
      have hque : st.queue = pre' ++ Commander.stop :: rest := hq.2
      cases hcase : c with
      | stop => exact absurd hcase hp
      | exec spawns =>
          cases budget with
          | zero => simp at hbud
          | succ b =>
              have hq2 : st.queue ++ spawns
                  = pre' ++ Commander.stop :: (rest ++ spawns) := by
                rw [hque]
                simp [List.append_assoc]
              cases hsplit : pre' ++ Commander.stop :: (rest ++ spawns) with
              | nil => exact absurd hsplit (by simp)
              | cons c2 rest2 =>
                  rw [wakeup_loop_exec_succ_cons_eq threadsCreated spawns st
                    executed b c2 rest2 (by rw [hq2, hsplit])]
                  have hbud' : pre'.length ≤ b := by
                    simp only [List.length_cons] at hbud
                    omega
                  have hrec := ih (fun x hx => hpre x (List.mem_cons_of_mem _ hx))
                    c2 ⟨rest2, st.wakeupActive, st.running, st.destroyed⟩
                    (executed + 1) b (rest ++ spawns) (by rw [← hsplit]) hbud'
                  refine ⟨hrec.1, ?_, hrec.2.2.1, hrec.2.2.2.1, hrec.2.2.2.2⟩
                  rw [hrec.2.1]
                  simp only [List.length_cons]
                  omega

lemma wakeup_loop_all_exec (threadsCreated : Bool) :
    ∀ (origs acc : List Commander) (c : Commander) (st : EvLoopState)
      (executed : Nat),
      (∀ x ∈ c :: origs, x ≠ Commander.stop) → st.queue = origs ++ acc →
      as_ev_wakeup_loop threadsCreated c st executed origs.length
        = ⟨executed + origs.length + 1,
           ⟨acc ++ ((c :: origs).map Commander.spawnsOf).flatten,
            st.wakeupActive, st.running, st.destroyed⟩, false⟩ := by
  intro origs
  induction origs with
  | nil =>
      intro acc c st executed hne hq
      cases hcase : c with
      | stop => exact absurd hcase (hne c (List.mem_cons_self _ _))
      | exec spawns =>
          rw [show ([] : List Commander).length = 0 from rfl,
            wakeup_loop_exec_zero_eq]
          simp only [List.nil_append] at hq
          have hqq : st.queue ++ spawns
              = acc ++ ((Commander.exec spawns :: ([] : List Commander)).map
                  Commander.spawnsOf).flatten := by
            rw [hq]
            simp [Commander.spawnsOf]
          rw [hqq]
  | cons o origs' ih =>
      intro acc c st executed hne hq
      cases hcase : c with
      | stop => exact absurd hcase (hne c (List.mem_cons_self _ _))
      | exec spawns =>
          have hq2 : st.queue ++ spawns = o :: (origs' ++ (acc ++ spawns)) := by
            rw [hq]
            simp [List.append_assoc]
          rw [show (o :: origs').length = origs'.length + 1 from rfl,
            wakeup_loop_exec_succ_cons_eq threadsCreated spawns st executed
              origs'.length o (origs' ++ (acc ++ spawns)) hq2]
          have hne' : ∀ x ∈ o :: origs', x ≠ Commander.stop := by
            intro x hx
            exact hne x (List.mem_cons_of_mem _ hx)
          have hrec := ih (acc ++ spawns) o
            ⟨origs' ++ (acc ++ spawns), st.wakeupActive, st.running, st.destroyed⟩
            (executed + 1) hne' rfl
          rw [hrec]
          have harith : executed + 1 + origs'.length + 1
              = executed + (origs'.length + 1) + 1 := by omega
          rw [harith]
          have hqueue : (acc ++ spawns)
                ++ ((o :: origs').map Commander.spawnsOf).flatten
              = acc ++ ((Commander.exec spawns :: o :: origs').map
                  Commander.spawnsOf).flatten := by
            simp [Commander.spawnsOf, List.append_assoc]
          rw [hqueue]

/-- C3: for every wakeup, (1) the handler executes at most the number of
commanders queued at the moment the wakeup fired; (2) if the queue holds a
run of executables followed by the null-executable sentinel, the handler
executes exactly that run, then tears the loop down — wakeup watcher
stopped, loop resources destroyed, and the `ev` run loop stopped when the
loop thread was library-created — executing nothing further; (3) when the
queue holds only executables, all of them (and nothing else) run, and every
commander they re-entrantly enqueued is still queued afterwards, deferred to
a later wakeup. -/
theorem wakeup_drain_snapshot (threadsCreated : Bool) :
    (∀ st : EvLoopState,
      (as_ev_wakeup threadsCreated st).executed ≤ st.queue.length)
    ∧ (∀ (pre rest : List Commander) (wa ru de : Bool),
        (∀ x ∈ pre, x ≠ Commander.stop) →
        (as_ev_wakeup threadsCreated
            ⟨pre ++ Commander.stop :: rest, wa, ru, de⟩).closed = true
        ∧ (as_ev_wakeup threadsCreated
            ⟨pre ++ Commander.stop :: rest, wa, ru, de⟩).executed = pre.length
        ∧ (as_ev_wakeup threadsCreated
            ⟨pre ++ Commander.stop :: rest, wa, ru, de⟩).st.wakeupActive = false
        ∧ (as_ev_wakeup threadsCreated
            ⟨pre ++ Commander.stop :: rest, wa, ru, de⟩).st.destroyed = true
        ∧ (threadsCreated = true →
            (as_ev_wakeup threadsCreated
              ⟨pre ++ Commander.stop :: rest, wa, ru, de⟩).st.running = false))
    ∧ (∀ (q : List Commander) (wa ru de : Bool),
        (∀ x ∈ q, x ≠ Commander.stop) →
        as_ev_wakeup threadsCreated ⟨q, wa, ru, de⟩
          = ⟨q.length, ⟨(q.map Commander.spawnsOf).flatten, wa, ru, de⟩, false⟩) := by
  refine ⟨?_, ?_, ?_⟩
  · intro st
    rw [as_ev_wakeup]
    cases hq : st.queue with
    | nil => simp
    | cons c rest =>
        simp only []
        have := wakeup_loop_executed_le threadsCreated
          ((c :: rest).length - 1) c ⟨rest, st.wakeupActive, st.running, st.destroyed⟩ 0
        simp only [List.length_cons] at this ⊢
        omega
  · intro pre rest wa ru de hpre
    rw [as_ev_wakeup]
    cases hq : pre ++ Commander.stop :: rest with
    | nil => exact absurd hq (by simp)
    | cons c rest2 =>
        simp only []
        have hlen : pre.length ≤ (pre ++ Commander.stop :: rest).length - 1 := by
          simp [List.length_append]
        have := wakeup_loop_sentinel threadsCreated pre hpre c
          ⟨rest2, wa, ru, de⟩ 0 ((pre ++ Commander.stop :: rest).length - 1)
          rest (by rw [← hq]) (by rw [hq] at hlen; rw [hq]; exact hlen)
        rw [hq] at this
        exact ⟨this.1, by rw [this.2.1]; omega, this.2.2.1, this.2.2.2.1, this.2.2.2.2⟩
  · intro q wa ru de hq
    rw [as_ev_wakeup]
    cases hqq : q with
    | nil => simp
    | cons c rest =>
        simp only []
        have := wakeup_loop_all_exec threadsCreated rest [] c
          ⟨rest, wa, ru, de⟩ 0 (by rw [← hqq]; exact hq) (by simp)
        simp only [List.length_cons]
        rw [show (rest.length + 1 - 1) = rest.length by omega, this]
        simp

/-- Witness for `wakeup_drain_snapshot`: three executables, the middle one
spawning, then a sentinel behind them. -/
theorem wakeup_drain_snapshot_witness :
    ((as_ev_wakeup true
        ⟨[Commander.exec [], Commander.exec [Commander.exec []]], true, true,
          false⟩).executed
      ≤ ([Commander.exec [], Commander.exec [Commander.exec []]] : List Commander).length)
    ∧ ((as_ev_wakeup true
        ⟨[Commander.exec []] ++ Commander.stop :: [Commander.exec []], true, true,
          false⟩).closed = true)
    ∧ (as_ev_wakeup true ⟨[Commander.exec [Commander.exec []]], true, true, false⟩
        = ⟨1, ⟨[Commander.exec []], true, true, false⟩, false⟩) := by
  refine ⟨(wakeup_drain_snapshot true).1 _, ?_, ?_⟩
  · exact ((wakeup_drain_snapshot true).2.1 [Commander.exec []] [Commander.exec []]
      true true false (by intro x hx; simp at hx; rw [hx]; simp)).1
  · have := (wakeup_drain_snapshot true).2.2 [Commander.exec [Commander.exec []]]
      true true false (by intro x hx; simp at hx; rw [hx]; simp)
    rw [this]
    simp [Commander.spawnsOf]

/-! ## Async command read (`as_ev_command_read`, `as_ev_command_peek_block`)

The multi-block read path: `as_ev_command_read` reads the 8-byte `as_proto`
header, takes the declared body length, reads the body and hands it to the
command's result parser; an unfinished parse enters
`as_ev_command_peek_block`, which prepares the next header read and — when
the next declared body length equals `sizeof(as_msg)` and the block is not
compressed — speculatively reads and parses that body to decide between
loop-back and completion.

The socket is modelled as a stream of chunks, each a parsed frame header
(declared size and type tag) or a frame body carrying the verdict the
result parser returns on it; a read from an empty stream is the would-block
case.  Buffer growth and decompression (`as_event_decompress`, outside the
translated sources) carry no state the claims depend on and are elided:
a compressed body's verdict is the parser's verdict on its decompressed
content. -/

def sizeof_as_proto : Nat := 8
def sizeof_as_msg : Nat := 22
def AS_MESSAGE_TYPE : Nat := 3
def AS_COMPRESSED_MESSAGE_TYPE : Nat := 4

/-- A unit of socket input: a frame header (already byte-order-normalized:
declared body size and type tag) or a frame body, carrying what
`cmd->parse_results` returns on it. -/
inductive Chunk
  | header (sz ty : Nat)
  | body (finished : Bool)
  deriving DecidableEq, Repr

/-- Protocol phase of the command (`cmd->state`) in the command-read path. -/
inductive AsyncState
  | commandReadHeader
  | commandReadBody
  deriving DecidableEq, Repr

/-- The per-command read state: phase, expected length, progress position,
and the type tag of the frame being received (`cmd->proto_type_rcv`). -/
structure EvCmd where
  state : AsyncState
  len : Nat
  pos : Nat
  protoTypeRcv : Nat
  deriving DecidableEq, Repr

/-- Return codes of the read path (`AS_EVENT_READ_COMPLETE` etc.);
`malformed` marks a stream that offers a body where the machine reads a
header or vice versa (impossible for streams produced by a server). -/
inductive EvResult
  | readComplete
  | readIncomplete
  | readError
  | commandDone
  | malformed
  deriving DecidableEq, Repr

/-- Mirror of `as_ev_read`: read the remaining `len - pos` bytes of the
current unit; an empty stream is the would-block case
(`AS_EVENT_READ_INCOMPLETE`, read interest re-registered).  On completion
the consumed chunk is returned for the caller to interpret. -/
def as_ev_read (cmd : EvCmd) (stream : List Chunk) :
    EvResult × EvCmd × List Chunk × Option Chunk :=
  match stream with
  | [] => (.readIncomplete, cmd, [], none)
  | ck :: rest =>
      match cmd.state, ck with
      | .commandReadHeader, .header sz ty =>
          (.readComplete, { cmd with pos := cmd.len }, rest, some (.header sz ty))
      | .commandReadBody, .body f =>
          (.readComplete, { cmd with pos := cmd.len }, rest, some (.body f))
      | _, _ => (.malformed, cmd, ck :: rest, none)

/-- Modelled from the spec: `as_event_proto_parse` — normalize and validate
the fixed-size header; a type tag outside the protocol's message types is
corruption (read error), otherwise the received type is recorded on the
command. -/
def as_event_proto_parse (cmd : EvCmd) (ty : Nat) : Option EvCmd :=
  if ty = AS_MESSAGE_TYPE ∨ ty = AS_COMPRESSED_MESSAGE_TYPE then
    some { cmd with protoTypeRcv := ty }
  else none

/-- Mirror of `as_ev_command_peek_block`: prepare the next header read;
when the declared body length equals the end-marker size `sizeof(as_msg)`
and the block is not compressed, speculatively read and parse the body —
an unfinished parse loops the state back to `COMMAND_READ_HEADER` (len
reset to the header size, pos 0); a finished parse completes the command.
A longer body is a normal data block: reading stops for fairness until the
next iteration. -/
def as_ev_command_peek_block (cmd0 : EvCmd) (stream : List Chunk) :
    EvResult × EvCmd × List Chunk :=
  let cmd := { cmd0 with
    len := sizeof_as_proto, pos := 0, state := AsyncState.commandReadHeader }
  match as_ev_read cmd stream with
  | (.readComplete, cmd, stream, some (.header sz ty)) =>
      (match as_event_proto_parse cmd ty with
      | none => (.readError, cmd, stream)
      | some cmd =>
          let cmd := { cmd with
            len := sz, pos := 0, state := AsyncState.commandReadBody }
          if cmd.len = sizeof_as_msg
              ∧ cmd.protoTypeRcv ≠ AS_COMPRESSED_MESSAGE_TYPE then
            -- Looks like we received an end block.  Read and parse to make sure.
            match as_ev_read cmd stream with
            | (.readComplete, cmd, stream, some (.body finished)) =>
                let cmd := { cmd with pos := 0 }
                if ¬ finished then
                  -- We did not finish after all.  Prepare to read next header.
                  (.readComplete,
                   { cmd with
                     len := sizeof_as_proto, pos := 0,
                     state := AsyncState.commandReadHeader },
                   stream)
                else
                  (.commandDone, cmd, stream)
            | (rv, cmd, stream, _) => (rv, cmd, stream)
          else
            -- Received normal data block.  Stop reading for fairness.
            (.readComplete, cmd, stream))
  | (rv, cmd, stream, _) => (rv, cmd, stream)

/-- Body-read half of `as_ev_command_read` (entered directly when the
command resumes in `COMMAND_READ_BODY`). -/
def as_ev_command_read_body (cmd : EvCmd) (stream : List Chunk) :
    EvResult × EvCmd × List Chunk :=
  match as_ev_read cmd stream with
  | (.readComplete, cmd, stream, some (.body finished)) =>
      let cmd := { cmd with pos := 0 }
      if ¬ finished then
        -- Batch, scan, query is not finished.
        as_ev_command_peek_block cmd stream
      else
        (.commandDone, cmd, stream)
  | (rv, cmd, stream, _) => (rv, cmd, stream)

/-- Mirror of `as_ev_command_read`. -/
def as_ev_command_read (cmd0 : EvCmd) (stream : List Chunk) :
    EvResult × EvCmd × List Chunk :=
  if cmd0.state = AsyncState.commandReadHeader then
    match as_ev_read cmd0 stream with
    | (.readComplete, cmd, stream, some (.header sz ty)) =>
        (match as_event_proto_parse cmd ty with
        | none => (.readError, cmd, stream)
        | some cmd =>
            let cmd := { cmd with
              len := sz, pos := 0, state := AsyncState.commandReadBody }
            as_ev_command_read_body cmd stream)
    | (rv, cmd, stream, _) => (rv, cmd, stream)
  else
    as_ev_command_read_body cmd0 stream

/-- C2: (i) in `as_ev_command_peek_block`, a header declaring a body of
exactly `sizeof(as_msg)` on a non-compressed frame makes the machine read
and speculatively parse that body: an unfinished parse returns the command
to `COMMAND_READ_HEADER` with `pos` reset and `len` set to the header size
instead of completing, and only a finished parse yields `COMMAND_DONE`;
(ii) a stream of one full data block whose parse is unfinished followed by
an end-marker-sized terminal block takes exactly the two header+body read
cycles — the whole four-chunk stream — and reaches `COMMAND_DONE`, while
after the first block alone the command is back at `COMMAND_READ_HEADER`
waiting (would-block), not done. -/
theorem peek_block_end_marker (cmd : EvCmd) (ty : Nat) (f : Bool)
    (rest : List Chunk)
    (hty : ty = AS_MESSAGE_TYPE ∨ ty = AS_COMPRESSED_MESSAGE_TYPE)
    (hnc : ty ≠ AS_COMPRESSED_MESSAGE_TYPE) :
    (as_ev_command_peek_block cmd
        (Chunk.header sizeof_as_msg ty :: Chunk.body f :: rest)
      = if f then
          (.commandDone, ⟨AsyncState.commandReadBody, sizeof_as_msg, 0, ty⟩, rest)
        else
          (.readComplete,
           ⟨AsyncState.commandReadHeader, sizeof_as_proto, 0, ty⟩, rest))
    ∧ (as_ev_command_read ⟨AsyncState.commandReadHeader, sizeof_as_proto, 0, 0⟩
        [Chunk.header 100 AS_MESSAGE_TYPE, Chunk.body false,
         Chunk.header sizeof_as_msg AS_MESSAGE_TYPE, Chunk.body true]
      = (.commandDone,
         ⟨AsyncState.commandReadBody, sizeof_as_msg, 0, AS_MESSAGE_TYPE⟩, []))
    ∧ (as_ev_command_read ⟨AsyncState.commandReadHeader, sizeof_as_proto, 0, 0⟩
        [Chunk.header 100 AS_MESSAGE_TYPE, Chunk.body false]
      = (.readIncomplete,
         ⟨AsyncState.commandReadHeader, sizeof_as_proto, 0, AS_MESSAGE_TYPE⟩, [])) := by
  have hty3 : ty = AS_MESSAGE_TYPE := by
    rcases hty with h | h
    · exact h
    · exact absurd h hnc
  subst hty3
  refine ⟨?_, by decide, by decide⟩
  cases f <;>
    simp [as_ev_command_peek_block, as_ev_read, as_event_proto_parse,
      sizeof_as_msg, sizeof_as_proto, AS_MESSAGE_TYPE, AS_COMPRESSED_MESSAGE_TYPE]

/-- Witness for `peek_block_end_marker` with an unfinished end-marker-sized
body. -/
theorem peek_block_end_marker_witness :
    (as_ev_command_peek_block ⟨AsyncState.commandReadBody, 100, 0, AS_MESSAGE_TYPE⟩
        (Chunk.header sizeof_as_msg AS_MESSAGE_TYPE :: Chunk.body false :: [])
      = if false then
          (.commandDone,
           ⟨AsyncState.commandReadBody, sizeof_as_msg, 0, AS_MESSAGE_TYPE⟩, [])
        else
          (.readComplete,
           ⟨AsyncState.commandReadHeader, sizeof_as_proto, 0, AS_MESSAGE_TYPE⟩, []))
    ∧ (as_ev_command_read ⟨AsyncState.commandReadHeader, sizeof_as_proto, 0, 0⟩
        [Chunk.header 100 AS_MESSAGE_TYPE, Chunk.body false,
         Chunk.header sizeof_as_msg AS_MESSAGE_TYPE, Chunk.body true]
      = (.commandDone,
         ⟨AsyncState.commandReadBody, sizeof_as_msg, 0, AS_MESSAGE_TYPE⟩, []))
    ∧ (as_ev_command_read ⟨AsyncState.commandReadHeader, sizeof_as_proto, 0, 0⟩
        [Chunk.header 100 AS_MESSAGE_TYPE, Chunk.body false]
      = (.readIncomplete,
         ⟨AsyncState.commandReadHeader, sizeof_as_proto, 0, AS_MESSAGE_TYPE⟩, [])) :=
  peek_block_end_marker ⟨AsyncState.commandReadBody, 100, 0, AS_MESSAGE_TYPE⟩
    AS_MESSAGE_TYPE false [] (Or.inl rfl) (by decide)

/-! ## Rack parsing (`as_node_parse_racks`, as_node.c lines 1047-1137)

Input format `<ns1>:<rack1>;<ns2>:<rack2>...`.  A first pass walks the
buffer counting `:` occurrences and checking (with `strtol` on the text
after each `:`) whether all rack ids are identical; if so a compact
zero-size representation carrying the single id is published.  Otherwise a
second destructive pass splits each `<ns>:<id>` pair (rejecting namespace
names of length 0 or ≥ 32) and builds the per-namespace array.  The model
walks the same characters; the second pass's two nested loops (namespace
scan, then digit scan to `;`/`\n`/NUL) become one structural pass with an
explicit mode. -/

/-- Whitespace set skipped by `strtol` (modelled from the C library's
`isspace`). -/
def isSpaceChar (c : Char) : Bool :=
  c = ' ' || c = '\t' || c = '\n' || c = '\r' || c = '\x0b' || c = '\x0c'

/-- Decimal accumulation of `strtol`: consume digits, stop at the first
non-digit. -/
def digitsVal : List Char → Nat → Nat
  | [], acc => acc
  | c :: rest, acc =>
      if c.isDigit then digitsVal rest (acc * 10 + (c.toNat - 48)) else acc

/-- Modelled from the C library's `strtol` (base 10): skip leading
whitespace, then an optional sign, then digits; parsing stops at the first
non-digit (rack ids stay far below the `long` overflow range). -/
def strtol (s : List Char) : Int :=
  let s2 := s.dropWhile isSpaceChar
  match s2 with
  | [] => 0
  | c :: rest =>
      if c = '-' then - (digitsVal rest 0 : Int)
      else if c = '+' then (digitsVal rest 0 : Int)
      else (digitsVal (c :: rest) 0 : Int)

/-- State of the first pass of `as_node_parse_racks`: the candidate common
rack id, whether any id has been seen, whether all ids seen so far agree,
and the count of `:` separators. -/
structure PreScan where
  rack_id : Int
  first : Bool
  same : Bool
  size : Nat
  deriving DecidableEq, Repr

/-- One `:` encountered by the first pass, with `r` the `strtol` value of
the following text (the C calls `strtol` only while `same` still holds;
`strtol` is pure, so passing the value unconditionally is equivalent). -/
def preScanStep (st : PreScan) (r : Int) : PreScan :=
  let st := { st with size := st.size + 1 }
  if st.same then
    if st.first then { st with rack_id := r, first := false }
    else if st.rack_id ≠ r then { st with same := false }
    else st
  else st

/-- Mirror of the first-pass `while (*p)` loop of `as_node_parse_racks`. -/
def preScanGo : List Char → PreScan → PreScan
  | [], st => st
  | c :: rest, st =>
      if c = ':' then preScanGo rest (preScanStep st (strtol rest))
      else preScanGo rest st

/-- The rack ids the input carries: the `strtol` value after each `:`. -/
def rackIds : List Char → List Int
  | [] => []
  | c :: rest => if c = ':' then strtol rest :: rackIds rest else rackIds rest

/-- Published rack representation: the compact size-0 form holding a single
scalar id, or the per-namespace array (its `size` is the first pass's `:`
count). -/
inductive RacksValue
  | compact (rack_id : Int)
  | array (size : Nat) (entries : List (List Char × Int))
  deriving DecidableEq, Repr

/-- Where the second pass stands: scanning a namespace name, or the digit
run after its `:` (carrying the pending namespace and the digits so far). -/
inductive RackMode
  | inNs (ns : List Char)
  | inDigits (ns : List Char) (seg : List Char)
  deriving DecidableEq, Repr

/-- Mirror of the second pass of `as_node_parse_racks`: the outer namespace
scan and inner rack-digit scan (to `;`, `\n` or the end) fused into one
structural walk.  At the end of the input inside a digit run the entry is
still recorded (the C advances past the value's terminator and the outer
loop ends on the NUL that follows in the surrounding info buffer). -/
def parseRacksGo : List Char → RackMode → List (List Char × Int) →
    Except as_status (List (List Char × Int))
  | [], .inNs _, acc => .ok acc.reverse
  | [], .inDigits ns seg, acc => .ok ((ns, strtol seg) :: acc).reverse
  | c :: rest, .inNs ns, acc =>
      if c = ':' then
        if ns.length = 0 ∨ ns.length ≥ 32 then .error as_status.errClient
        else parseRacksGo rest (.inDigits ns []) acc
      else parseRacksGo rest (.inNs (ns ++ [c])) acc
  | c :: rest, .inDigits ns seg, acc =>
      if c = ';' ∨ c = '\n' then
        parseRacksGo rest (.inNs []) ((ns, strtol seg) :: acc)
      else parseRacksGo rest (.inDigits ns (seg ++ [c])) acc

/-- Mirror of `as_node_parse_racks`: pre-scan, compact representation when
all ids agree, otherwise the full per-namespace array. -/
def as_node_parse_racks (buf : List Char) : Except as_status RacksValue :=
  let st := preScanGo buf ⟨0, true, true, 0⟩
  if st.same then
    .ok (.compact st.rack_id)
  else
    match parseRacksGo buf (.inNs []) [] with
    | .error e => .error e
    | .ok entries => .ok (.array st.size entries)

/-- Render a list of (namespace, rack-digit-string) pairs in the rack-ids
response format `<ns1>:<rack1>;<ns2>:<rack2>...`. -/
def renderRacks : List (List Char × List Char) → List Char
  | [] => []
  | [p] => p.1 ++ ':' :: p.2
  | p :: rest => p.1 ++ ':' :: (p.2 ++ ';' :: renderRacks rest)

/-- A well-formed pair: nonempty namespace shorter than 32 characters with
no separator characters, and a nonempty decimal id. -/
def validRackPair (p : List Char × List Char) : Prop :=
  p.1 ≠ [] ∧ p.1.length < 32 ∧ (∀ c ∈ p.1, c ≠ ':' ∧ c ≠ ';' ∧ c ≠ '\n')
  ∧ p.2 ≠ [] ∧ (∀ c ∈ p.2, c.isDigit = true)

/-- All elements of a list of ids coincide. -/
def allSameInt (l : List Int) : Prop := ∀ a ∈ l, ∀ b ∈ l, a = b

lemma digit_props (c : Char) (h : c.isDigit = true) :
    c ≠ ':' ∧ c ≠ ';' ∧ c ≠ '\n' ∧ c ≠ '-' ∧ c ≠ '+' ∧ isSpaceChar c = false := by
  refine ⟨?_, ?_, ?_, ?_, ?_, ?_⟩
  · intro hc; subst hc; exact absurd h (by decide)
  · intro hc; subst hc; exact absurd h (by decide)
  · intro hc; subst hc; exact absurd h (by decide)
  · intro hc; subst hc; exact absurd h (by decide)
  · intro hc; subst hc; exact absurd h (by decide)
  · by_contra hc
    have hc2 : isSpaceChar c = true := Bool.not_eq_false _ |>.mp hc
    unfold isSpaceChar at hc2
    simp only [Bool.or_eq_true, decide_eq_true_eq] at hc2
    rcases hc2 with ((((h1 | h1) | h1) | h1) | h1) | h1 <;>
      (subst h1; exact absurd h (by decide))

lemma digitsVal_append_stop :
    ∀ (ds : List Char) (acc : Nat) (t : List Char),
      (∀ c ∈ ds, c.isDigit = true) →
      (∀ c, t.head? = some c → c.isDigit = false) →
      digitsVal (ds ++ t) acc = digitsVal ds acc := by
  intro ds
  induction ds with
  | nil =>
      intro acc t _ ht
      cases t with
      | nil => rfl
      | cons c t' =>
          simp only [List.nil_append, digitsVal]
          rw [ht c rfl]
          rfl
  | cons d ds' ih =>
      intro acc t hds ht
      have hd : d.isDigit = true := hds d (List.mem_cons_self _ _)
      simp only [List.cons_append, digitsVal, hd, if_true]
      exact ih _ t (fun c hc => hds c (List.mem_cons_of_mem _ hc)) ht

lemma strtol_digits (ds t : List Char) (hne : ds ≠ [])
    (hds : ∀ c ∈ ds, c.isDigit = true)
    (ht : ∀ c, t.head? = some c → c.isDigit = false) :
    strtol (ds ++ t) = (digitsVal ds 0 : Int) := by
  cases ds with
  | nil => exact absurd rfl hne
  | cons d ds' =>
      have hd := hds d (List.mem_cons_self _ _)
      have hp := digit_props d hd
      unfold strtol
      simp only [List.cons_append, List.dropWhile_cons, hp.2.2.2.2.2,
        Bool.false_eq_true, if_false]
      rw [if_neg hp.2.2.2.1, if_neg hp.2.2.2.2.1]
      rw [show d :: (ds' ++ t) = (d :: ds') ++ t from rfl]
      rw [digitsVal_append_stop (d :: ds') 0 t hds ht]

lemma strtol_all_digits (ds : List Char) (hne : ds ≠ [])
    (hds : ∀ c ∈ ds, c.isDigit = true) : strtol ds = (digitsVal ds 0 : Int) := by
  have h := strtol_digits ds [] hne hds (by intro c hc; simp at hc)
  simpa using h

lemma rackIds_skip (l m : List Char) (hl : ∀ c ∈ l, c ≠ ':') :
    rackIds (l ++ m) = rackIds m := by
  induction l with
  | nil => rfl
  | cons c l' ih =>
      simp only [List.cons_append, rackIds]
      rw [if_neg (hl c (List.mem_cons_self _ _))]
      exact ih (fun x hx => hl x (List.mem_cons_of_mem _ hx))

lemma rackIds_nil_of_no_colon (l : List Char) (hl : ∀ c ∈ l, c ≠ ':') :
    rackIds l = [] := by
  have h := rackIds_skip l [] hl
  simpa using h

lemma rackIds_cons_colon (tail : List Char) :
    rackIds (':' :: tail) = strtol tail :: rackIds tail := by
  rw [rackIds]
  rw [if_pos rfl]

lemma rackIds_cons_semi (tail : List Char) :
    rackIds (';' :: tail) = rackIds tail := by
  rw [rackIds]
  rw [if_neg (show ¬ ((';' : Char) = ':') from by decide)]

lemma rackIds_render :
    ∀ (pairs : List (List Char × List Char)),
      (∀ p ∈ pairs, validRackPair p) →
      rackIds (renderRacks pairs)
        = pairs.map (fun p => (digitsVal p.2 0 : Int)) := by
  intro pairs
  induction pairs with
  | nil => intro _; rfl
  | cons p rest ih =>
      intro hv
      obtain ⟨h1, h2, h3, h4, h5⟩ := hv p (List.mem_cons_self _ _)
      have hds_colon : ∀ c ∈ p.2, c ≠ ':' := fun c hc => (digit_props c (h5 c hc)).1
      cases rest with
      | nil =>
          rw [show renderRacks [p] = p.1 ++ ':' :: p.2 from rfl]
          rw [rackIds_skip p.1 _ (fun c hc => (h3 c hc).1)]
          rw [rackIds_cons_colon]
          rw [strtol_all_digits p.2 h4 h5, rackIds_nil_of_no_colon p.2 hds_colon]
          rfl
      | cons q rest' =>
          rw [show renderRacks (p :: q :: rest')
              = p.1 ++ ':' :: (p.2 ++ ';' :: renderRacks (q :: rest')) from rfl]
          rw [rackIds_skip p.1 _ (fun c hc => (h3 c hc).1)]
          rw [rackIds_cons_colon]
          rw [strtol_digits p.2 (';' :: renderRacks (q :: rest')) h4 h5
            (by
              intro c hc
              simp only [List.head?_cons, Option.some.injEq] at hc
              rw [← hc]
              decide)]
          rw [rackIds_skip p.2 _ hds_colon]
          rw [rackIds_cons_semi]
          rw [ih (fun x hx => hv x (List.mem_cons_of_mem _ hx))]
          rfl

lemma preScanGo_eq_foldl :
    ∀ (buf : List Char) (st : PreScan),
      preScanGo buf st = (rackIds buf).foldl preScanStep st := by
  intro buf
  induction buf with
  | nil => intro st; rfl
  | cons c rest ih =>
      intro st
      simp only [preScanGo, rackIds]
      by_cases hc : c = ':'
      · rw [if_pos hc, if_pos hc, ih]
        rfl
      · rw [if_neg hc, if_neg hc, ih]

lemma preScan_foldl_not_same :
    ∀ (ids : List Int) (st : PreScan), st.same = false →
      ids.foldl preScanStep st
        = ⟨st.rack_id, st.first, false, st.size + ids.length⟩ := by
  intro ids
  induction ids with
  | nil =>
      intro st h
      obtain ⟨a, b, c, d⟩ := st
      simp only [] at h
      subst h
      rfl
  | cons r ids' ih =>
      intro st h
      simp only [List.foldl_cons]
      have hstep : preScanStep st r = { st with size := st.size + 1 } := by
        unfold preScanStep
        rw [if_neg (by simp [h])]
      rw [hstep, ih _ (by simp [h])]
      simp only [List.length_cons]
      congr 1
      omega

lemma preScan_foldl_seen :
    ∀ (ids' : List Int) (r : Int) (sz : Nat),
      ids'.foldl preScanStep ⟨r, false, true, sz⟩
        = ⟨r, false, ids'.all (fun x => x = r), sz + ids'.length⟩ := by
  intro ids'
  induction ids' with
  | nil => intro r sz; simp
  | cons x ids'' ih =>
      intro r sz
      simp only [List.foldl_cons, List.all_cons]
      by_cases hx : x = r
      · have hstep : preScanStep ⟨r, false, true, sz⟩ x
            = ⟨r, false, true, sz + 1⟩ := by
          unfold preScanStep
          rw [if_pos rfl, if_neg (by simp), if_neg (by simp [hx])]
        rw [hstep, ih]
        simp only [List.length_cons]
        rw [show (decide (x = r)) = true by simp [hx]]
        simp only [Bool.true_and]
        congr 1
        omega
      · have hstep : preScanStep ⟨r, false, true, sz⟩ x
            = ⟨r, false, false, sz + 1⟩ := by
          unfold preScanStep
          rw [if_pos rfl, if_neg (by simp)]
          rw [if_pos (by simp; exact fun hh => hx hh.symm)]
        rw [hstep, preScan_foldl_not_same ids'' _ rfl]
        simp only [List.length_cons]
        rw [show (decide (x = r)) = false by simp [hx]]
        simp only [Bool.false_and]
        congr 1
        omega

lemma allSameInt_cons (r : Int) (ids : List Int) :
    allSameInt (r :: ids) ↔ ∀ x ∈ ids, x = r := by
  constructor
  · intro h x hx
    exact h x (List.mem_cons_of_mem _ hx) r (List.mem_cons_self _ _)
  · intro h a ha b hb
    rcases List.mem_cons.mp ha with ha1 | ha2 <;>
      rcases List.mem_cons.mp hb with hb1 | hb2
    · rw [ha1, hb1]
    · rw [ha1, h b hb2]
    · rw [hb1, h a ha2]
    · rw [h a ha2, h b hb2]

lemma parseRacksGo_ns_skip :
    ∀ (ns : List Char) (m nsAcc : List Char) (acc : List (List Char × Int)),
      (∀ c ∈ ns, c ≠ ':') →
      parseRacksGo (ns ++ m) (.inNs nsAcc) acc
        = parseRacksGo m (.inNs (nsAcc ++ ns)) acc := by
  intro ns
  induction ns with
  | nil => intro m nsAcc acc _; simp
  | cons c ns' ih =>
      intro m nsAcc acc h
      simp only [List.cons_append, parseRacksGo, List.append_eq]
      rw [if_neg (h c (List.mem_cons_self _ _))]
      rw [ih m (nsAcc ++ [c]) acc (fun x hx => h x (List.mem_cons_of_mem _ hx))]
      simp [List.append_assoc]

lemma parseRacksGo_digit_skip :
    ∀ (ds : List Char) (m ns seg : List Char) (acc : List (List Char × Int)),
      (∀ c ∈ ds, c ≠ ';' ∧ c ≠ '\n') →
      parseRacksGo (ds ++ m) (.inDigits ns seg) acc
        = parseRacksGo m (.inDigits ns (seg ++ ds)) acc := by
  intro ds
  induction ds with
  | nil => intro m ns seg acc _; simp
  | cons c ds' ih =>
      intro m ns seg acc h
      simp only [List.cons_append, parseRacksGo, List.append_eq]
      rw [if_neg (by
        have := h c (List.mem_cons_self _ _)
        rintro (h1 | h1)
        · exact this.1 h1
        · exact this.2 h1)]
      rw [ih m ns (seg ++ [c]) acc (fun x hx => h x (List.mem_cons_of_mem _ hx))]
      simp [List.append_assoc]

lemma parseRacksGo_render :
    ∀ (pairs : List (List Char × List Char)) (acc : List (List Char × Int)),
      (∀ p ∈ pairs, validRackPair p) →
      parseRacksGo (renderRacks pairs) (.inNs []) acc
        = .ok (acc.reverse
            ++ pairs.map (fun p => (p.1, (digitsVal p.2 0 : Int)))) := by
  intro pairs
  induction pairs with
  | nil => intro acc _; simp [renderRacks, parseRacksGo]
  | cons p rest ih =>
      intro acc hv
      obtain ⟨h1, h2, h3, h4, h5⟩ := hv p (List.mem_cons_self _ _)
      have hlen0 : p.1.length ≠ 0 := fun hh => h1 (List.length_eq_zero.mp hh)
      have hnosep : ∀ c ∈ p.2, c ≠ ';' ∧ c ≠ '\n' := by
        intro c hc
        have := digit_props c (h5 c hc)
        exact ⟨this.2.1, this.2.2.1⟩
      have hcolon : ∀ (tail : List Char) (nsv : List Char)
          (acc2 : List (List Char × Int)), nsv = p.1 →
          parseRacksGo (':' :: tail) (.inNs nsv) acc2
            = parseRacksGo tail (.inDigits nsv []) acc2 := by
        intro tail nsv acc2 hns
        rw [parseRacksGo]
        rw [if_pos rfl]
        rw [if_neg (by rw [hns]; exact not_or.mpr ⟨hlen0, by omega⟩)]
      cases rest with
      | nil =>
          rw [show renderRacks [p] = p.1 ++ ':' :: p.2 from rfl]
          rw [parseRacksGo_ns_skip p.1 _ [] acc (fun c hc => (h3 c hc).1)]
          rw [List.nil_append, hcolon p.2 p.1 acc rfl]
          conv_lhs => rw [show p.2 = p.2 ++ [] from (List.append_nil _).symm]
          rw [parseRacksGo_digit_skip p.2 [] p.1 [] acc hnosep]
          rw [List.nil_append, parseRacksGo]
          rw [strtol_all_digits p.2 h4 h5]
          simp [List.reverse_cons]
      | cons q rest' =>
          rw [show renderRacks (p :: q :: rest')
              = p.1 ++ ':' :: (p.2 ++ ';' :: renderRacks (q :: rest')) from rfl]
          rw [parseRacksGo_ns_skip p.1 _ [] acc (fun c hc => (h3 c hc).1)]
          rw [List.nil_append, hcolon _ p.1 acc rfl]
          rw [parseRacksGo_digit_skip p.2 _ p.1 [] acc hnosep]
          rw [List.nil_append, parseRacksGo]
          rw [if_pos (show (';' : Char) = ';' ∨ (';' : Char) = '\n' from Or.inl rfl)]
          rw [ih _ (fun x hx => hv x (List.mem_cons_of_mem _ hx))]
          rw [strtol_all_digits p.2 h4 h5]
          simp [List.reverse_cons, List.append_assoc]

lemma parse_racks_result :
    ∀ (pairs : List (List Char × List Char)),
      (∀ p ∈ pairs, validRackPair p) →
      as_node_parse_racks (renderRacks pairs)
        = match pairs.map (fun p => (digitsVal p.2 0 : Int)) with
          | [] => .ok (RacksValue.compact 0)
          | r :: ids' =>
              if ids'.all (fun x => x = r) then .ok (RacksValue.compact r)
              else .ok (RacksValue.array (1 + ids'.length)
                  (pairs.map (fun p => (p.1, (digitsVal p.2 0 : Int))))) := by
  intro pairs hvalid
  unfold as_node_parse_racks
  rw [preScanGo_eq_foldl, rackIds_render pairs hvalid]
  cases pairs with
  | nil => rfl
  | cons p rest =>
      simp only [List.map_cons, List.foldl_cons]
      rw [show preScanStep ⟨0, true, true, 0⟩ ((digitsVal p.2 0 : Int))
          = ⟨(digitsVal p.2 0 : Int), false, true, 1⟩ from rfl]
      rw [preScan_foldl_seen]
      by_cases hall : ((rest.map (fun p => (digitsVal p.2 0 : Int))).all
            (fun x => x = (digitsVal p.2 0 : Int))) = true
      · simp [hall]
      · have hall' := Bool.not_eq_true _ |>.mp hall
        rw [parseRacksGo_render (p :: rest) [] hvalid]
        simp [hall']

/-- C8: for every well-formed rack-ids response string (rendered from
`ns:rackid` pairs with valid namespaces and decimal ids),
`as_node_parse_racks` publishes the compact size-0 representation exactly
when every pair's rack id is identical — and then the scalar `rack_id`
equals that common id; otherwise it publishes the array representation with
one entry per pair, namespaces and ids matching the input.  In particular
`"ns1:2;ns2:2;ns3:2"` yields the compact form with id 2, and
`"ns1:1;ns2:2"` yields a 2-entry array with matching ids. -/
theorem parse_racks_compact_iff (pairs : List (List Char × List Char))
    (hvalid : ∀ p ∈ pairs, validRackPair p) :
    ((∃ r, as_node_parse_racks (renderRacks pairs) = .ok (RacksValue.compact r))
        ↔ allSameInt (pairs.map (fun p => (digitsVal p.2 0 : Int))))
    ∧ (∀ r, as_node_parse_racks (renderRacks pairs) = .ok (RacksValue.compact r) →
        ∀ x ∈ pairs.map (fun p => (digitsVal p.2 0 : Int)), x = r)
    ∧ (¬ allSameInt (pairs.map (fun p => (digitsVal p.2 0 : Int))) →
        as_node_parse_racks (renderRacks pairs)
          = .ok (RacksValue.array pairs.length
              (pairs.map (fun p => (p.1, (digitsVal p.2 0 : Int))))))
    ∧ (as_node_parse_racks ("ns1:2;ns2:2;ns3:2".toList)
        = .ok (RacksValue.compact 2))
    ∧ (as_node_parse_racks ("ns1:1;ns2:2".toList)
        = .ok (RacksValue.array 2 [("ns1".toList, 1), ("ns2".toList, 2)])) := by
  have hres := parse_racks_result pairs hvalid
  refine ⟨?_, ?_, ?_, rfl, rfl⟩
  · cases pairs with
    | nil =>
        simp only [List.map_nil] at hres ⊢
        constructor
        · intro _ a ha
          simp at ha
        · intro _
          exact ⟨0, hres⟩
    | cons p rest =>
        simp only [List.map_cons] at hres ⊢
        rw [allSameInt_cons]
        by_cases hall : ((rest.map (fun p => (digitsVal p.2 0 : Int))).all
              (fun x => x = (digitsVal p.2 0 : Int))) = true
        · rw [hall, if_pos rfl] at hres
          constructor
          · intro _ x hx
            exact (List.all_eq_true.mp hall x hx |> of_decide_eq_true)
          · intro _
            exact ⟨_, hres⟩
        · have hall' := Bool.not_eq_true _ |>.mp hall
          rw [hall'] at hres
          simp only [Bool.false_eq_true, if_false] at hres
          constructor
          · intro ⟨r, hr⟩
            rw [hres] at hr
            simp at hr
          · intro hsame
            exact absurd (List.all_eq_true.mpr
              (fun x hx => decide_eq_true (hsame x hx))) hall
  · intro r hr
    cases pairs with
    | nil =>
        intro x hx
        simp at hx
    | cons p rest =>
        simp only [List.map_cons] at hres
        by_cases hall : ((rest.map (fun p => (digitsVal p.2 0 : Int))).all
              (fun x => x = (digitsVal p.2 0 : Int))) = true
        · rw [hall, if_pos rfl] at hres
          rw [hres] at hr
          simp only [Except.ok.injEq, RacksValue.compact.injEq] at hr
          intro x hx
          simp only [List.map_cons, List.mem_cons] at hx
          rcases hx with hx1 | hx2
          · rw [hx1, ← hr]
          · rw [← hr]
            exact (List.all_eq_true.mp hall x hx2 |> of_decide_eq_true)
        · have hall' := Bool.not_eq_true _ |>.mp hall
          rw [hall'] at hres
          simp only [Bool.false_eq_true, if_false] at hres
          rw [hres] at hr
          simp at hr
  · intro hns
    cases pairs with
    | nil =>
        exact absurd (by intro a ha; simp at ha) hns
    | cons p rest =>
        simp only [List.map_cons] at hres hns
        rw [allSameInt_cons] at hns
        have hall : ((rest.map (fun p => (digitsVal p.2 0 : Int))).all
              (fun x => x = (digitsVal p.2 0 : Int))) = false := by
          by_contra hc
          have h2 := Bool.not_eq_false _ |>.mp hc
          exact hns (fun x hx => List.all_eq_true.mp h2 x hx |> of_decide_eq_true)
        rw [hall] at hres
        simp only [Bool.false_eq_true, if_false] at hres
        rw [hres]
        simp [List.length_map, Nat.add_comm]

/-- Witness for `parse_racks_compact_iff` at the pairs rendering to
`"a:7;b:7"`. -/
theorem parse_racks_compact_iff_witness :
    ((∃ r, as_node_parse_racks
        (renderRacks [(['a'], ['7']), (['b'], ['7'])]) = .ok (RacksValue.compact r))
      ↔ allSameInt ([(['a'], ['7']), (['b'], ['7'])].map
          (fun p => (digitsVal p.2 0 : Int))))
    ∧ allSameInt ([(['a'], ['7']), (['b'], ['7'])].map
        (fun p => (digitsVal p.2 0 : Int))) := by
  have hv : ∀ p ∈ [((['a'], ['7']) : List Char × List Char), (['b'], ['7'])],
      validRackPair p := by
    intro p hp
    simp only [List.mem_cons, List.mem_singleton] at hp
    rcases hp with h | h | h
    · rw [h]; refine ⟨by decide, by decide, by decide, by decide, by decide⟩
    · rw [h]; refine ⟨by decide, by decide, by decide, by decide, by decide⟩
    · simp at h
  refine ⟨(parse_racks_compact_iff [(['a'], ['7']), (['b'], ['7'])] hv).1, ?_⟩
  intro a ha b hb
  simp only [List.map_cons, List.map_nil, List.mem_cons, List.mem_singleton,
    List.not_mem_nil] at ha hb
  rcases ha with h1 | h1 | h1 <;> rcases hb with h2 | h2 | h2 <;>
    simp_all

end Aerospike
